import Mathlib

/-!
Verification of the response-pipeline orchestrator of `groq_robot.py`
(a voice-interaction server for a conversational robot).

Strings are modelled as `List Char` (the Python text values are plain
`str`; `.strip()`, `.upper()`, `.lower()` are modelled over the ASCII
range, which is the range the parser's tag detection uses).  Network
collaborators (the Groq chat completion call, the Murf TTS call, the
ffmpeg subprocess) are modelled as explicit oracle parameters, and the
process-wide `conversation_history` dict as an association list passed
in and out of each operation.
-/

abbrev Str := List Char

/-- The six ASCII whitespace characters recognised by Python `str.strip()`. -/
def pyWS (c : Char) : Bool :=
  c = ' ' || c = '\t' || c = '\n' || c = '\r' || c = '\x0b' || c = '\x0c'

def nlChar : Char := '\n'

def spaceChar : Char := ' '

def colonChar : Char := ':'

/-- Python `s.strip()`: remove leading and trailing whitespace. -/
def pyStrip (s : Str) : Str := (s.dropWhile pyWS).rdropWhile pyWS

/-- Python `s.upper()` (ASCII range). -/
def pyUpper (s : Str) : Str := s.map Char.toUpper

/-- Python `s.lower()` (ASCII range). -/
def pyLower (s : Str) : Str := s.map Char.toLower

/-- Python `s.split("\n")`. -/
def splitLines : Str → List Str
  | [] => [[]]
  | c :: cs =>
    match splitLines cs with
    | [] => [[c]]
    | l :: ls => if c = nlChar then [] :: l :: ls else (c :: l) :: ls

/-- Python `" ".join(ls)`. -/
def joinSpace : List Str → Str
  | [] => []
  | [l] => l
  | l :: ls => l ++ spaceChar :: joinSpace ls

/-- Python `line.split(":", 1)[1]`: everything after the first colon
(`[]` when there is no colon; the parser only evaluates this on lines
that are guaranteed to contain one). -/
def afterFirstColon : Str → Str
  | [] => []
  | c :: cs => if c = colonChar then cs else afterFirstColon cs

example : pyStrip (("  ab c  ".data)) = ("ab c".data) := by decide
example : splitLines (("a\nb".data)) = [("a".data), ("b".data)] := by decide
example : splitLines (("\n".data)) = [[], []] := by decide
example : joinSpace [("a".data), [], ("b".data)] = ("a  b".data) := by decide
example : afterFirstColon (("MOTION: x:y".data)) = (" x:y".data) := by decide

/-! ## The directive parser (`parse_response`, groq_robot.py lines 113-129) -/

/-- Default motion label (`"initial position"`). -/
def MOTION_DEFAULT : Str := ("initial position".data)

/-- Default face label (`"talking"`). -/
def FACE_DEFAULT : Str := ("talking".data)

def MOTION_TAG : Str := ("MOTION:".data)

def FACE_TAG : Str := ("FACE:".data)

/-- `line.strip().upper().startswith("MOTION:")`. -/
def isMotionLine (line : Str) : Bool := MOTION_TAG.isPrefixOf (pyUpper (pyStrip line))

/-- `line.strip().upper().startswith("FACE:")`. -/
def isFaceLine (line : Str) : Bool := FACE_TAG.isPrefixOf (pyUpper (pyStrip line))

/-- `line.split(":", 1)[1].strip().lower()` — the label value carried by a
trailer line. -/
def trailerValue (line : Str) : Str := pyLower (pyStrip (afterFirstColon line))

/-- State of the parsing loop: current motion, current face, accumulated
`clean_lines`. -/
structure PState where
  motion : Str
  face : Str
  clean : List Str
deriving DecidableEq

/-- One iteration of the `for line in lines` loop of `parse_response`. -/
def parseStep (st : PState) (line : Str) : PState :=
  if isMotionLine line then { st with motion := trailerValue line }
  else if isFaceLine line then { st with face := trailerValue line }
  else { st with clean := st.clean ++ [line] }

/-- The parsed triple returned by `parse_response`. -/
structure Parsed where
  spoken_text : Str
  motion : Str
  face : Str
deriving DecidableEq

/-- `parse_response(raw_text)` (groq_robot.py lines 113-129): strip the raw
text, split into lines, fold the loop, then join and strip the clean lines. -/
def parse_response (raw_text : Str) : Parsed :=
  let lines := splitLines (pyStrip raw_text)
  let st := lines.foldl parseStep ⟨MOTION_DEFAULT, FACE_DEFAULT, []⟩
  ⟨pyStrip (joinSpace st.clean), st.motion, st.face⟩

example :
    parse_response (("Hello there!\nMOTION: dance\nFACE: happy".data)) =
      ⟨("Hello there!".data), ("dance".data), ("happy".data)⟩ := by decide

example :
    parse_response (("Just text, no trailers".data)) =
      ⟨("Just text, no trailers".data), MOTION_DEFAULT, FACE_DEFAULT⟩ := by decide

example : parse_response [] = ⟨[], MOTION_DEFAULT, FACE_DEFAULT⟩ := by decide

example :
    parse_response (("MOTION: a\nmid\nmotion:  B \nFACE: x".data)) =
      ⟨("mid".data), ("b".data), ("x".data)⟩ := by decide

/-! ## Specification-side formulations (the words of the claims) -/

/-- A trailer line: a line whose case-insensitive trimmed form starts with
`MOTION:` or `FACE:`. -/
def trailerLine (line : Str) : Bool := isMotionLine line || isFaceLine line

/-- Claim-side spoken text: the lines of the raw string that are not trailer
lines, in original order, joined with single spaces, trimmed. -/
def spokenSpec (raw : Str) : Str :=
  pyStrip (joinSpace ((splitLines raw).filter (fun l => !(trailerLine l))))

/-- Claim-side motion: the lowercased, trimmed value after the colon of the
last line whose case-insensitive trimmed form starts with `MOTION:`, default
`"initial position"`. -/
def motionSpec (raw : Str) : Str :=
  match ((splitLines raw).filter isMotionLine).getLast? with
  | none => MOTION_DEFAULT
  | some l => trailerValue l

/-- Claim-side face: likewise for `FACE:`, default `"talking"`. -/
def faceSpec (raw : Str) : Str :=
  match ((splitLines raw).filter isFaceLine).getLast? with
  | none => FACE_DEFAULT
  | some l => trailerValue l

example : motionSpec (("MOTION: a\nmid\nmotion:  B \nFACE: x".data)) = ("b".data) := by decide
example : spokenSpec (("  \nMOTION: a\nhi\n ".data)) = ("hi".data) := by decide

/-! ## Parser lemmas: the loop computes last-occurrence values and the
filtered clean lines -/

/-- Line-list-level motion value (last `MOTION:` line wins). -/
def motionOfL (L : List Str) : Str :=
  match (L.filter isMotionLine).getLast? with
  | none => MOTION_DEFAULT
  | some l => trailerValue l

/-- Line-list-level face value (last `FACE:` line wins). -/
def faceOfL (L : List Str) : Str :=
  match (L.filter isFaceLine).getLast? with
  | none => FACE_DEFAULT
  | some l => trailerValue l

/-- Line-list-level spoken text. -/
def spokenOfL (L : List Str) : Str :=
  pyStrip (joinSpace (L.filter (fun l => !(trailerLine l))))

lemma motionSpec_eq (raw : Str) : motionSpec raw = motionOfL (splitLines raw) := rfl

lemma faceSpec_eq (raw : Str) : faceSpec raw = faceOfL (splitLines raw) := rfl

lemma spokenSpec_eq (raw : Str) : spokenSpec raw = spokenOfL (splitLines raw) := rfl

lemma motion_not_face {l : Str} (h : isMotionLine l = true) : isFaceLine l = false := by
  cases hf : isFaceLine l with
  | false => rfl
  | true =>
    exfalso
    rw [isMotionLine, List.isPrefixOf_iff_prefix] at h
    rw [isFaceLine, List.isPrefixOf_iff_prefix] at hf
    obtain ⟨t1, h1⟩ := h
    obtain ⟨t2, h2⟩ := hf
    rw [← h1] at h2
    have hM : MOTION_TAG = 'M' :: ("OTION:".data) := rfl
    have hF : FACE_TAG = 'F' :: ("ACE:".data) := rfl
    rw [hM, hF] at h2
    simp at h2

lemma faceOnly_eq (l : Str) : (!(isMotionLine l) && isFaceLine l) = isFaceLine l := by
  cases hf : isFaceLine l with
  | false => simp
  | true =>
    cases hm : isMotionLine l with
    | false => simp
    | true => rw [motion_not_face hm] at hf; exact absurd hf (by simp)

lemma cleanOnly_eq (l : Str) : (!(isMotionLine l) && !(isFaceLine l)) = !(trailerLine l) := by
  rw [trailerLine, Bool.not_or]

lemma foldl_parseStep_motion (L : List Str) (st : PState) :
    (L.foldl parseStep st).motion =
      match (L.filter isMotionLine).getLast? with
      | none => st.motion
      | some l => trailerValue l := by
  induction L generalizing st with
  | nil => simp
  | cons line rest ih =>
    rw [List.foldl_cons, ih, List.filter_cons]
    by_cases hm : isMotionLine line
    · rw [if_pos hm, List.getLast?_cons]
      cases hfr : (rest.filter isMotionLine).getLast? with
      | none => simp [parseStep, hm]
      | some x => simp
    · rw [if_neg hm]
      have : (parseStep st line).motion = st.motion := by
        by_cases hf : isFaceLine line <;>
          simp [parseStep, hm, hf]
      rw [this]

lemma foldl_parseStep_face (L : List Str) (st : PState) :
    (L.foldl parseStep st).face =
      match (L.filter isFaceLine).getLast? with
      | none => st.face
      | some l => trailerValue l := by
  have key : ∀ (L : List Str) (st : PState),
      (L.foldl parseStep st).face =
        match (L.filter (fun l => !(isMotionLine l) && isFaceLine l)).getLast? with
        | none => st.face
        | some l => trailerValue l := by
    intro L
    induction L with
    | nil => intro st; simp
    | cons line rest ih =>
      intro st
      rw [List.foldl_cons, ih, List.filter_cons]
      by_cases hm : isMotionLine line
      · have : (!(isMotionLine line) && isFaceLine line) = false := by simp [hm]
        rw [this, if_neg (by simp)]
        have : (parseStep st line).face = st.face := by simp [parseStep, hm]
        rw [this]
      · by_cases hf : isFaceLine line
        · have : (!(isMotionLine line) && isFaceLine line) = true := by simp [hm, hf]
          rw [this, if_pos rfl, List.getLast?_cons]
          cases hfr : (rest.filter (fun l => !(isMotionLine l) && isFaceLine l)).getLast? with
          | none => simp [parseStep, hm, hf]
          | some x => simp
        · have : (!(isMotionLine line) && isFaceLine line) = false := by simp [hf]
          rw [this, if_neg (by simp)]
          have : (parseStep st line).face = st.face := by simp [parseStep, hm, hf]
          rw [this]
  rw [key]
  have : L.filter (fun l => !(isMotionLine l) && isFaceLine l) = L.filter isFaceLine :=
    List.filter_congr (fun l _ => faceOnly_eq l)
  rw [this]

lemma foldl_parseStep_clean (L : List Str) (st : PState) :
    (L.foldl parseStep st).clean = st.clean ++ L.filter (fun l => !(trailerLine l)) := by
  induction L generalizing st with
  | nil => simp
  | cons line rest ih =>
    rw [List.foldl_cons, ih, List.filter_cons]
    by_cases hm : isMotionLine line
    · have ht : (!(trailerLine line)) = false := by simp [trailerLine, hm]
      rw [ht, if_neg (by simp)]
      have : (parseStep st line).clean = st.clean := by simp [parseStep, hm]
      rw [this]
    · by_cases hf : isFaceLine line
      · have ht : (!(trailerLine line)) = false := by simp [trailerLine, hf]
        rw [ht, if_neg (by simp)]
        have : (parseStep st line).clean = st.clean := by simp [parseStep, hm, hf]
        rw [this]
      · have ht : (!(trailerLine line)) = true := by simp [trailerLine, hm, hf]
        rw [ht, if_pos rfl]
        have : (parseStep st line).clean = st.clean ++ [line] := by simp [parseStep, hm, hf]
        rw [this, List.append_assoc]
        rfl

/-- `parse_response` computed in terms of the line-list-level spec functions,
applied to the lines of the *stripped* raw text. -/
lemma parse_response_eq_ofL (raw : Str) :
    parse_response raw =
      ⟨spokenOfL (splitLines (pyStrip raw)), motionOfL (splitLines (pyStrip raw)),
        faceOfL (splitLines (pyStrip raw))⟩ := by
  unfold parse_response
  have hm := foldl_parseStep_motion (splitLines (pyStrip raw)) ⟨MOTION_DEFAULT, FACE_DEFAULT, []⟩
  have hf := foldl_parseStep_face (splitLines (pyStrip raw)) ⟨MOTION_DEFAULT, FACE_DEFAULT, []⟩
  have hc := foldl_parseStep_clean (splitLines (pyStrip raw)) ⟨MOTION_DEFAULT, FACE_DEFAULT, []⟩
  simp only at hm hf hc
  rw [Parsed.mk.injEq]
  refine ⟨?_, ?_, ?_⟩
  · rw [hc]; rfl
  · rw [hm]; rfl
  · rw [hf]; rfl

/-! ## Whitespace-stability lemmas -/

lemma pyWS_ne_colon {c : Char} (h : pyWS c = true) : c ≠ colonChar := by
  intro hc
  rw [hc] at h
  exact absurd h (by decide)

lemma pyStrip_cons_ws {c : Char} {s : Str} (h : pyWS c = true) :
    pyStrip (c :: s) = pyStrip s := by
  rw [pyStrip, pyStrip, List.dropWhile_cons, if_pos h]

lemma pyStrip_concat_ws {c : Char} {s : Str} (h : pyWS c = true) :
    pyStrip (s ++ [c]) = pyStrip s := by
  rw [pyStrip, pyStrip, List.dropWhile_append]
  by_cases he : (s.dropWhile pyWS).isEmpty
  · rw [if_pos he]
    have h1 : List.dropWhile pyWS [c] = [] := by
      rw [List.dropWhile_cons, if_pos h, List.dropWhile_nil]
    rw [h1, List.rdropWhile_nil]
    rw [List.isEmpty_iff] at he
    rw [he, List.rdropWhile_nil]
  · rw [if_neg he, List.rdropWhile_concat_pos pyWS _ _ h]

lemma pyUpper_of_pyStrip_cons_ws {c : Char} {s : Str} (h : pyWS c = true) :
    pyUpper (pyStrip (c :: s)) = pyUpper (pyStrip s) := by
  rw [pyStrip_cons_ws h]

lemma isMotionLine_cons_ws {c : Char} {s : Str} (h : pyWS c = true) :
    isMotionLine (c :: s) = isMotionLine s := by
  rw [isMotionLine, isMotionLine, pyStrip_cons_ws h]

lemma isFaceLine_cons_ws {c : Char} {s : Str} (h : pyWS c = true) :
    isFaceLine (c :: s) = isFaceLine s := by
  rw [isFaceLine, isFaceLine, pyStrip_cons_ws h]

lemma isMotionLine_concat_ws {c : Char} {s : Str} (h : pyWS c = true) :
    isMotionLine (s ++ [c]) = isMotionLine s := by
  rw [isMotionLine, isMotionLine, pyStrip_concat_ws h]

lemma isFaceLine_concat_ws {c : Char} {s : Str} (h : pyWS c = true) :
    isFaceLine (s ++ [c]) = isFaceLine s := by
  rw [isFaceLine, isFaceLine, pyStrip_concat_ws h]

lemma trailerLine_cons_ws {c : Char} {s : Str} (h : pyWS c = true) :
    trailerLine (c :: s) = trailerLine s := by
  rw [trailerLine, trailerLine, isMotionLine_cons_ws h, isFaceLine_cons_ws h]

lemma trailerLine_concat_ws {c : Char} {s : Str} (h : pyWS c = true) :
    trailerLine (s ++ [c]) = trailerLine s := by
  rw [trailerLine, trailerLine, isMotionLine_concat_ws h, isFaceLine_concat_ws h]

lemma trailerValue_cons_ws {c : Char} {s : Str} (h : pyWS c = true) :
    trailerValue (c :: s) = trailerValue s := by
  rw [trailerValue, trailerValue, afterFirstColon, if_neg (pyWS_ne_colon h)]

lemma afterFirstColon_concat_of_mem {s : Str} (c : Char) (hmem : colonChar ∈ s) :
    afterFirstColon (s ++ [c]) = afterFirstColon s ++ [c] := by
  induction s with
  | nil => exact absurd hmem (List.not_mem_nil _)
  | cons d s ih =>
    by_cases hd : d = colonChar
    · rw [List.cons_append, afterFirstColon, if_pos hd, afterFirstColon, if_pos hd]
    · rw [List.cons_append, afterFirstColon, if_neg hd, afterFirstColon, if_neg hd]
      exact ih (by
        rcases List.mem_cons.mp hmem with h | h
        · exact absurd h.symm hd
        · exact h)

lemma afterFirstColon_eq_nil {s : Str} (hmem : colonChar ∉ s) :
    afterFirstColon s = [] := by
  induction s with
  | nil => rfl
  | cons d s ih =>
    by_cases hd : d = colonChar
    · exact absurd (hd ▸ List.mem_cons_self d s) hmem
    · rw [afterFirstColon, if_neg hd]
      exact ih (fun h => hmem (List.mem_cons_of_mem d h))

lemma trailerValue_concat_ws {c : Char} {s : Str} (h : pyWS c = true) :
    trailerValue (s ++ [c]) = trailerValue s := by
  by_cases hmem : colonChar ∈ s
  · rw [trailerValue, trailerValue, afterFirstColon_concat_of_mem c hmem,
      pyStrip_concat_ws h]
  · have h1 : afterFirstColon s = [] := afterFirstColon_eq_nil hmem
    have h2 : afterFirstColon (s ++ [c]) = [] := by
      apply afterFirstColon_eq_nil
      intro hin
      rcases List.mem_append.mp hin with hin | hin
      · exact hmem hin
      · rcases List.mem_singleton.mp hin with rfl
        exact pyWS_ne_colon h rfl
    rw [trailerValue, trailerValue, h1, h2]

/-- `Char.toUpper` maps only lowercase letters; nothing maps *to* a colon
except the colon itself. -/
lemma toUpper_eq_colon {c : Char} (h : Char.toUpper c = colonChar) : c = colonChar := by
  have h' : (if c.toNat ≥ 97 ∧ c.toNat ≤ 122 then Char.ofNat (c.toNat - 32) else c) =
      colonChar := h
  by_cases hl : c.toNat ≥ 97 ∧ c.toNat ≤ 122
  · exfalso
    rw [if_pos hl] at h'
    have h2 := congrArg Char.toNat h'
    have h3 : (Char.ofNat (c.toNat - 32)).toNat = c.toNat - 32 := by
      unfold Char.ofNat
      rw [dif_pos (Or.inl (by omega))]
      rfl
    rw [h3] at h2
    have h4 : colonChar.toNat = 58 := by decide
    omega
  · rw [if_neg hl] at h'
    exact h'

/-- Every trailer line contains a colon (so the Python `line.split(":", 1)[1]`
indexing in `parse_response` cannot raise). -/
lemma trailerLine_mem_colon {l : Str} (h : trailerLine l = true) : colonChar ∈ l := by
  have hpre : colonChar ∈ pyUpper (pyStrip l) := by
    rw [trailerLine, Bool.or_eq_true] at h
    rcases h with h | h
    · rw [isMotionLine, List.isPrefixOf_iff_prefix] at h
      exact h.subset (by decide)
    · rw [isFaceLine, List.isPrefixOf_iff_prefix] at h
      exact h.subset (by decide)
  rw [pyUpper, List.mem_map] at hpre
  obtain ⟨c, hc, hcu⟩ := hpre
  rcases toUpper_eq_colon hcu with rfl
  have h1 : pyStrip l <+: l.dropWhile pyWS := List.rdropWhile_prefix pyWS _
  have h2 : l.dropWhile pyWS <:+ l := List.dropWhile_suffix pyWS
  exact h2.subset (h1.subset hc)

/-! ## Structure of `splitLines` under edge modifications -/

lemma splitLines_ne_nil (s : Str) : splitLines s ≠ [] := by
  cases s with
  | nil => simp [splitLines]
  | cons c cs =>
    simp only [splitLines]
    cases h : splitLines cs with
    | nil => simp
    | cons l ls =>
      by_cases hc : c = nlChar <;> simp [hc]

lemma splitLines_cons_nl (s : Str) : splitLines (nlChar :: s) = [] :: splitLines s := by
  simp only [splitLines]
  cases h : splitLines s with
  | nil => exact absurd h (splitLines_ne_nil s)
  | cons l ls => simp

lemma splitLines_cons_ne {c : Char} (hc : c ≠ nlChar) {s : Str} {l : Str} {ls : List Str}
    (h : splitLines s = l :: ls) : splitLines (c :: s) = (c :: l) :: ls := by
  simp only [splitLines, h]
  rw [if_neg hc]

/-- Append a character to the last line of a line list. -/
def appendLast : List Str → Char → List Str
  | [], c => [[c]]
  | [l], c => [l ++ [c]]
  | l :: l2 :: ls, c => l :: appendLast (l2 :: ls) c

lemma appendLast_concat (A : List Str) (h : Str) (c : Char) :
    appendLast (A ++ [h]) c = A ++ [h ++ [c]] := by
  induction A with
  | nil => rfl
  | cons a A ih =>
    cases A with
    | nil => rfl
    | cons a2 A2 =>
      show a :: appendLast ((a2 :: A2) ++ [h]) c = a :: ((a2 :: A2) ++ [h ++ [c]])
      rw [ih]

lemma splitLines_concat (s : Str) (c : Char) :
    splitLines (s ++ [c]) =
      if c = nlChar then splitLines s ++ [[]] else appendLast (splitLines s) c := by
  induction s with
  | nil =>
    by_cases hc : c = nlChar
    · rw [if_pos hc]
      subst hc
      rfl
    · rw [if_neg hc]
      show splitLines [c] = appendLast [[]] c
      simp only [splitLines]
      rw [if_neg hc]
      rfl
  | cons d s ih =>
    by_cases hc : c = nlChar
    · rw [if_pos hc]
      rw [if_pos hc] at ih
      by_cases hd : d = nlChar
      · subst hd
        rw [show (nlChar :: s) ++ [c] = nlChar :: (s ++ [c]) from rfl,
          splitLines_cons_nl, splitLines_cons_nl, ih]
        rfl
      · cases hs : splitLines s with
        | nil => exact absurd hs (splitLines_ne_nil s)
        | cons l ls =>
          have h1 : splitLines (s ++ [c]) = l :: (ls ++ [[]]) := by
            rw [ih, hs]; rfl
          rw [show (d :: s) ++ [c] = d :: (s ++ [c]) from rfl,
            splitLines_cons_ne hd h1, splitLines_cons_ne hd hs]
          rfl
    · rw [if_neg hc]
      rw [if_neg hc] at ih
      by_cases hd : d = nlChar
      · subst hd
        rw [show (nlChar :: s) ++ [c] = nlChar :: (s ++ [c]) from rfl,
          splitLines_cons_nl, splitLines_cons_nl, ih]
        cases hs : splitLines s with
        | nil => exact absurd hs (splitLines_ne_nil s)
        | cons l ls => rfl
      · cases hs : splitLines s with
        | nil => exact absurd hs (splitLines_ne_nil s)
        | cons l ls =>
          cases ls with
          | nil =>
            have h1 : splitLines (s ++ [c]) = [l ++ [c]] := by
              rw [ih, hs]; rfl
            rw [show (d :: s) ++ [c] = d :: (s ++ [c]) from rfl,
              splitLines_cons_ne hd h1, splitLines_cons_ne hd hs]
            rfl
          | cons l2 ls2 =>
            have h1 : splitLines (s ++ [c]) = l :: appendLast (l2 :: ls2) c := by
              rw [ih, hs]; rfl
            rw [show (d :: s) ++ [c] = d :: (s ++ [c]) from rfl,
              splitLines_cons_ne hd h1, splitLines_cons_ne hd hs]
            rfl

/-! ## Invariance of the spec values under edge-whitespace removal -/

/-- Generic "last trailer line wins" value for a predicate `p`. -/
def lastOfL (p : Str → Bool) (d : Str) (L : List Str) : Str :=
  match (L.filter p).getLast? with
  | none => d
  | some l => trailerValue l

lemma motionOfL_eq (L : List Str) : motionOfL L = lastOfL isMotionLine MOTION_DEFAULT L := rfl

lemma faceOfL_eq (L : List Str) : faceOfL L = lastOfL isFaceLine FACE_DEFAULT L := rfl

lemma lastOfL_nil_cons {p : Str → Bool} {d : Str} (hp : p [] = false) (L : List Str) :
    lastOfL p d ([] :: L) = lastOfL p d L := by
  unfold lastOfL
  rw [List.filter_cons, if_neg (by simp [hp])]

lemma lastOfL_head_congr {p : Str → Bool} {d : Str} {x x' : Str}
    (hx : p x = p x') (hv : trailerValue x = trailerValue x') (t : List Str) :
    lastOfL p d (x :: t) = lastOfL p d (x' :: t) := by
  unfold lastOfL
  rw [List.filter_cons, List.filter_cons, hx]
  by_cases hp : p x' = true
  · rw [if_pos hp, if_pos hp, List.getLast?_cons, List.getLast?_cons]
    cases hfr : (t.filter p).getLast? with
    | none => simp [hv]
    | some y => simp
  · rw [if_neg hp, if_neg hp]

lemma lastOfL_concat_nil {p : Str → Bool} {d : Str} (hp : p [] = false) (L : List Str) :
    lastOfL p d (L ++ [[]]) = lastOfL p d L := by
  unfold lastOfL
  rw [List.filter_append]
  have : List.filter p [[]] = [] := by simp [List.filter_cons, hp]
  rw [this, List.append_nil]

lemma lastOfL_last_congr {p : Str → Bool} {d : Str} {x x' : Str}
    (hx : p x = p x') (hv : trailerValue x = trailerValue x') (A : List Str) :
    lastOfL p d (A ++ [x]) = lastOfL p d (A ++ [x']) := by
  unfold lastOfL
  rw [List.filter_append, List.filter_append]
  by_cases hp : p x' = true
  · have h1 : List.filter p [x] = [x] := by simp [List.filter_cons, hx, hp]
    have h2 : List.filter p [x'] = [x'] := by simp [List.filter_cons, hp]
    rw [h1, h2, List.getLast?_concat, List.getLast?_concat]
    show trailerValue x = trailerValue x'
    exact hv
  · have h1 : List.filter p [x] = [] := by simp [List.filter_cons, hx, hp]
    have h2 : List.filter p [x'] = [] := by simp [List.filter_cons, hp]
    rw [h1, h2]

lemma joinSpace_concat {M : List Str} (hM : M ≠ []) (x : Str) :
    joinSpace (M ++ [x]) = joinSpace M ++ spaceChar :: x := by
  induction M with
  | nil => exact absurd rfl hM
  | cons m M ih =>
    cases M with
    | nil => rfl
    | cons m2 M2 =>
      show m ++ spaceChar :: joinSpace ((m2 :: M2) ++ [x]) =
        (m ++ spaceChar :: joinSpace (m2 :: M2)) ++ spaceChar :: x
      rw [ih (by simp), List.append_assoc]
      rfl

lemma spokenOfL_nil_cons (L : List Str) : spokenOfL ([] :: L) = spokenOfL L := by
  unfold spokenOfL
  rw [List.filter_cons, if_pos (by decide)]
  cases hM : L.filter (fun l => !(trailerLine l)) with
  | nil => rfl
  | cons m M' =>
    show pyStrip ([] ++ spaceChar :: joinSpace (m :: M')) = pyStrip (joinSpace (m :: M'))
    rw [List.nil_append, pyStrip_cons_ws (by decide)]

lemma spokenOfL_head_ws {c : Char} (hws : pyWS c = true) (h : Str) (t : List Str) :
    spokenOfL ((c :: h) :: t) = spokenOfL (h :: t) := by
  unfold spokenOfL
  rw [List.filter_cons, List.filter_cons, trailerLine_cons_ws hws]
  by_cases htr : trailerLine h = true
  · rw [if_neg (by simp [htr]), if_neg (by simp [htr])]
  · rw [if_pos (by simp [htr]), if_pos (by simp [htr])]
    cases hM : t.filter (fun l => !(trailerLine l)) with
    | nil =>
      show pyStrip (joinSpace [c :: h]) = pyStrip (joinSpace [h])
      show pyStrip (c :: h) = pyStrip h
      exact pyStrip_cons_ws hws
    | cons m M' =>
      show pyStrip ((c :: h) ++ spaceChar :: joinSpace (m :: M')) =
        pyStrip (h ++ spaceChar :: joinSpace (m :: M'))
      rw [List.cons_append, pyStrip_cons_ws hws]

lemma spokenOfL_concat_nil (L : List Str) : spokenOfL (L ++ [[]]) = spokenOfL L := by
  unfold spokenOfL
  rw [List.filter_append]
  have h1 : List.filter (fun l => !(trailerLine l)) [([] : Str)] = [[]] := by
    simp [List.filter_cons]
    decide
  rw [h1]
  cases hM : L.filter (fun l => !(trailerLine l)) with
  | nil => rfl
  | cons m M' =>
    rw [joinSpace_concat (by simp) ([] : Str)]
    show pyStrip ((joinSpace (m :: M') ++ [spaceChar])) = pyStrip (joinSpace (m :: M'))
    exact pyStrip_concat_ws (by decide)

lemma spokenOfL_last_ws {c : Char} (hws : pyWS c = true) (h : Str) (A : List Str) :
    spokenOfL (A ++ [h ++ [c]]) = spokenOfL (A ++ [h]) := by
  unfold spokenOfL
  rw [List.filter_append, List.filter_append]
  by_cases htr : trailerLine h = true
  · have h1 : List.filter (fun l => !(trailerLine l)) [h ++ [c]] = [] := by
      simp [List.filter_cons, trailerLine_concat_ws hws, htr]
    have h2 : List.filter (fun l => !(trailerLine l)) [h] = [] := by
      simp [List.filter_cons, htr]
    rw [h1, h2]
  · have h1 : List.filter (fun l => !(trailerLine l)) [h ++ [c]] = [h ++ [c]] := by
      simp [List.filter_cons, trailerLine_concat_ws hws, htr]
    have h2 : List.filter (fun l => !(trailerLine l)) [h] = [h] := by
      simp [List.filter_cons, htr]
    rw [h1, h2]
    cases hM : A.filter (fun l => !(trailerLine l)) with
    | nil =>
      show pyStrip (h ++ [c]) = pyStrip h
      exact pyStrip_concat_ws hws
    | cons m M' =>
      rw [joinSpace_concat (by simp) (h ++ [c]), joinSpace_concat (by simp) h]
      have : joinSpace (m :: M') ++ spaceChar :: (h ++ [c]) =
          (joinSpace (m :: M') ++ spaceChar :: h) ++ [c] := by
        rw [List.append_assoc]
        rfl
      rw [this, pyStrip_concat_ws hws]

/-- The triple of spec values computed from a line list. -/
def specOfLines (L : List Str) : Parsed := ⟨spokenOfL L, motionOfL L, faceOfL L⟩

lemma specOfLines_nil_cons (L : List Str) : specOfLines ([] :: L) = specOfLines L := by
  unfold specOfLines
  rw [spokenOfL_nil_cons, motionOfL_eq, motionOfL_eq, faceOfL_eq, faceOfL_eq,
    lastOfL_nil_cons (by decide), lastOfL_nil_cons (by decide)]

lemma specOfLines_head_ws {c : Char} (hws : pyWS c = true) (h : Str) (t : List Str) :
    specOfLines ((c :: h) :: t) = specOfLines (h :: t) := by
  unfold specOfLines
  rw [spokenOfL_head_ws hws, motionOfL_eq, motionOfL_eq, faceOfL_eq, faceOfL_eq,
    lastOfL_head_congr (isMotionLine_cons_ws hws) (trailerValue_cons_ws hws),
    lastOfL_head_congr (isFaceLine_cons_ws hws) (trailerValue_cons_ws hws)]

lemma specOfLines_concat_nil (L : List Str) : specOfLines (L ++ [[]]) = specOfLines L := by
  unfold specOfLines
  rw [spokenOfL_concat_nil, motionOfL_eq, motionOfL_eq, faceOfL_eq, faceOfL_eq,
    lastOfL_concat_nil (by decide), lastOfL_concat_nil (by decide)]

lemma specOfLines_last_ws {c : Char} (hws : pyWS c = true) (h : Str) (A : List Str) :
    specOfLines (A ++ [h ++ [c]]) = specOfLines (A ++ [h]) := by
  unfold specOfLines
  rw [spokenOfL_last_ws hws, motionOfL_eq, motionOfL_eq, faceOfL_eq, faceOfL_eq,
    lastOfL_last_congr (isMotionLine_concat_ws hws) (trailerValue_concat_ws hws),
    lastOfL_last_congr (isFaceLine_concat_ws hws) (trailerValue_concat_ws hws)]

/-- Removing one leading whitespace character does not change the spec values. -/
lemma specOfLines_cons_ws_char {c : Char} (hws : pyWS c = true) (s : Str) :
    specOfLines (splitLines (c :: s)) = specOfLines (splitLines s) := by
  by_cases hnl : c = nlChar
  · subst hnl
    rw [splitLines_cons_nl, specOfLines_nil_cons]
  · cases hs : splitLines s with
    | nil => exact absurd hs (splitLines_ne_nil s)
    | cons l ls =>
      rw [splitLines_cons_ne hnl hs, specOfLines_head_ws hws]

/-- Removing one trailing whitespace character does not change the spec values. -/
lemma specOfLines_concat_ws_char {c : Char} (hws : pyWS c = true) (s : Str) :
    specOfLines (splitLines (s ++ [c])) = specOfLines (splitLines s) := by
  rw [splitLines_concat]
  by_cases hnl : c = nlChar
  · rw [if_pos hnl, specOfLines_concat_nil]
  · rw [if_neg hnl]
    rcases List.eq_nil_or_concat (splitLines s) with hs | ⟨A, h, hs⟩
    · exact absurd hs (splitLines_ne_nil s)
    · rw [List.concat_eq_append] at hs
      rw [hs, appendLast_concat, specOfLines_last_ws hws]

lemma specOfLines_dropWhile (s : Str) :
    specOfLines (splitLines (s.dropWhile pyWS)) = specOfLines (splitLines s) := by
  induction s with
  | nil => rfl
  | cons c s ih =>
    by_cases hws : pyWS c = true
    · rw [List.dropWhile_cons, if_pos hws, ih, specOfLines_cons_ws_char hws]
    · rw [List.dropWhile_cons, if_neg hws]

lemma specOfLines_rdropWhile (s : Str) :
    specOfLines (splitLines (s.rdropWhile pyWS)) = specOfLines (splitLines s) := by
  induction s using List.reverseRecOn with
  | nil => rfl
  | append_singleton l c ih =>
    by_cases hws : pyWS c = true
    · rw [List.rdropWhile_concat_pos pyWS _ _ hws, ih, specOfLines_concat_ws_char hws]
    · rw [List.rdropWhile_concat_neg pyWS _ _ hws]

/-- The spec values are invariant under the initial `raw_text.strip()` done by
`parse_response`. -/
lemma specOfLines_pyStrip (s : Str) :
    specOfLines (splitLines (pyStrip s)) = specOfLines (splitLines s) := by
  rw [pyStrip, specOfLines_rdropWhile, specOfLines_dropWhile]

/-! ## Claim C1 -/

/-- Claim C1: for every raw string, `parse_response` returns exactly the
non-trailer lines in original order joined with single spaces and trimmed as
`spoken_text`, the lowercased trimmed value after the colon of the last
`MOTION:` line (default `"initial position"`) as `motion`, and likewise for
`FACE:` (default `"talking"`); with multiple trailer lines the last
occurrence wins (built into `motionSpec`/`faceSpec` via `getLast?`).
`parse_response` is a total function, so it never raises; the empty string
yields empty spoken text and both defaults; and the one Python expression of
the parser that could raise (`line.split(":", 1)[1]`) is evaluated only on
trailer lines, which always contain a colon (third conjunct). -/
theorem parse_response_matches_spec :
    (∀ raw : Str,
      parse_response raw = ⟨spokenSpec raw, motionSpec raw, faceSpec raw⟩)
    ∧ parse_response [] = ⟨[], MOTION_DEFAULT, FACE_DEFAULT⟩
    ∧ ∀ line : Str, (trailerLine line && !(decide (colonChar ∈ line))) = false := by
  refine ⟨?_, by decide, ?_⟩
  · intro raw
    rw [parse_response_eq_ofL raw]
    have hB := specOfLines_pyStrip raw
    unfold specOfLines at hB
    rw [Parsed.mk.injEq] at hB
    rw [spokenSpec_eq, motionSpec_eq, faceSpec_eq, Parsed.mk.injEq]
    exact ⟨hB.1, hB.2.1, hB.2.2⟩
  · intro line
    cases htr : trailerLine line with
    | false => rfl
    | true =>
      have hmem : colonChar ∈ line := trailerLine_mem_colon htr
      simp [hmem]

/-! ## Claim C2: unknown labels pass through unchanged -/

/-- The 18-value MOTION vocabulary of the system prompt (groq_robot.py
lines 44-61). -/
def MOTIONS : List Str :=
  [("hi".data), ("hand wave".data), ("shake hand".data), ("hands up".data),
   ("hands down".data), ("dance".data), ("jump".data), ("exercise".data),
   ("forward".data), ("backward".data), ("turn right".data), ("turn left".data),
   ("say yes".data), ("say no".data), ("say thank you".data),
   ("right bend wave".data), ("left bend wave".data), ("initial position".data)]

/-- The 7-value FACE vocabulary of the system prompt (groq_robot.py
lines 64-70). -/
def FACES : List Str :=
  [("talking".data), ("happy".data), ("sad".data), ("angry".data),
   ("crying".data), ("blink".data), ("initial".data)]

/-- Claim C2 counterexample: a reply whose `MOTION:` trailer carries the label
`zorp` — not in the enumerated vocabulary — parses to motion `"zorp"`, not to
the neutral default `"initial position"` that the claim predicts (and likewise
`FACE: glarp` parses to `"glarp"`, not `"talking"`). -/
theorem parse_response_unknown_label_cex :
    (parse_response (("MOTION: zorp".data))).motion = ("zorp".data)
    ∧ ("zorp".data) ∉ MOTIONS
    ∧ (parse_response (("MOTION: zorp".data))).motion ≠ MOTION_DEFAULT
    ∧ (parse_response (("FACE: glarp".data))).face = ("glarp".data)
    ∧ ("glarp".data) ∉ FACES
    ∧ (parse_response (("FACE: glarp".data))).face ≠ FACE_DEFAULT := by
  refine ⟨by decide, by decide, by decide, by decide, by decide, by decide⟩

lemma splitLines_no_nl {s : Str} (h : nlChar ∉ s) : splitLines s = [s] := by
  induction s with
  | nil => rfl
  | cons c cs ih =>
    have hc : c ≠ nlChar := fun hc => h (hc ▸ List.mem_cons_self c cs)
    have hcs : splitLines cs = [cs] := ih (fun hm => h (List.mem_cons_of_mem c hm))
    exact splitLines_cons_ne hc hcs

lemma rdropWhile_append_nonws {x : Str} (hx : List.rdropWhile pyWS x = x) (z : Str) :
    List.rdropWhile pyWS (x ++ z) = x ++ List.rdropWhile pyWS z := by
  induction z using List.reverseRecOn with
  | nil => rw [List.append_nil, List.rdropWhile_nil, List.append_nil, hx]
  | append_singleton l c ih =>
    by_cases hws : pyWS c = true
    · rw [← List.append_assoc, List.rdropWhile_concat_pos pyWS _ _ hws, ih,
        List.rdropWhile_concat_pos pyWS _ _ hws]
    · rw [← List.append_assoc, List.rdropWhile_concat_neg pyWS _ _ hws,
        List.rdropWhile_concat_neg pyWS _ _ hws, List.append_assoc]

/-- Claim C2 (amended): the parser performs no vocabulary validation — a
trailer label (already in trimmed, lowercase, single-line form) that is *not*
in the enumerated MOTION vocabulary is passed through unchanged as the motion
value; the neutral default appears only when no trailer line is present. -/
theorem parse_response_unknown_label_passthrough (v : Str)
    (hd : v.dropWhile pyWS = v) (hr : v.rdropWhile pyWS = v) (hlow : pyLower v = v)
    (hnl : nlChar ∉ v) (hunk : v ∉ MOTIONS) :
    parse_response (("MOTION: ".data) ++ v) = ⟨[], v, FACE_DEFAULT⟩ := by
  set s : Str := ("MOTION: ".data) ++ v with hs_def
  have hpyv : pyStrip v = v := by rw [pyStrip, hd, hr]
  have hnos : nlChar ∉ s := by
    intro hmem
    rcases List.mem_append.mp hmem with hmem | hmem
    · exact absurd hmem (by decide)
    · exact hnl hmem
  have hafter : afterFirstColon s = spaceChar :: v := rfl
  have htv : trailerValue s = v := by
    rw [trailerValue, hafter, pyStrip_cons_ws (by decide), hpyv, hlow]
  have hstrip : pyStrip s =
      ("MOTION:".data) ++ List.rdropWhile pyWS (spaceChar :: v) := by
    have h1 : s.dropWhile pyWS = s := by
      rw [hs_def]
      rfl
    have h2 : s = ("MOTION:".data) ++ (spaceChar :: v) := rfl
    rw [pyStrip, h1, h2, rdropWhile_append_nonws (by decide)]
  have hm : isMotionLine s = true := by
    rw [isMotionLine, List.isPrefixOf_iff_prefix, hstrip]
    have : pyUpper (("MOTION:".data) ++ List.rdropWhile pyWS (spaceChar :: v)) =
        ("MOTION:".data) ++ pyUpper (List.rdropWhile pyWS (spaceChar :: v)) := by
      rw [pyUpper, List.map_append]
      rfl
    rw [this]
    exact ⟨pyUpper (List.rdropWhile pyWS (spaceChar :: v)), rfl⟩
  have hf : isFaceLine s = false := motion_not_face hm
  have hsl : splitLines s = [s] := splitLines_no_nl hnos
  have heq := parse_response_eq_ofL s
  have hB := specOfLines_pyStrip s
  unfold specOfLines at hB
  rw [Parsed.mk.injEq] at hB
  rw [heq, Parsed.mk.injEq]
  refine ⟨?_, ?_, ?_⟩
  · rw [hB.1, spokenOfL, hsl, List.filter_cons,
      if_neg (by simp [trailerLine, hm]), List.filter_nil]
    rfl
  · rw [hB.2.1, motionOfL, hsl, List.filter_cons, if_pos hm, List.filter_nil]
    exact htv
  · rw [hB.2.2, faceOfL, hsl, List.filter_cons, if_neg (by simp [hf]), List.filter_nil]
    rfl

/-- Witness for the amended Claim C2 at the concrete unknown label `zorp`. -/
theorem parse_response_unknown_label_passthrough_witness :
    parse_response (("MOTION: ".data) ++ ("zorp".data)) = ⟨[], ("zorp".data), FACE_DEFAULT⟩ :=
  parse_response_unknown_label_passthrough ("zorp".data) (by decide) (by decide)
    (by decide) (by decide) (by decide)

/-! ## Data model: turns, the session store, the dialogue engine
(groq_robot.py lines 24-25 and 138-167) -/

/-- One chat message dict `{"role": ..., "content": ...}`. -/
structure Turn where
  role : Str
  content : Str
deriving DecidableEq

def userRole : Str := ("user".data)

def assistantRole : Str := ("assistant".data)

def systemRole : Str := ("system".data)

/-- The `conversation_history` dict, as an association list with unique keys. -/
abbrev Store := List (Str × List Turn)

def storeGet (st : Store) (k : Str) : Option (List Turn) := st.lookup k

/-- `conversation_history[k] = v` (replace if present, append otherwise). -/
def storeSet : Store → Str → List Turn → Store
  | [], k, v => [(k, v)]
  | (k', v') :: rest, k, v =>
    if k' = k then (k, v) :: rest else (k', v') :: storeSet rest k v

/-- `del conversation_history[k]`. -/
def storeErase (st : Store) (k : Str) : Store := st.filter (fun kv => !(kv.1 == k))

lemma storeGet_storeSet_self (st : Store) (k : Str) (v : List Turn) :
    storeGet (storeSet st k v) k = some v := by
  induction st with
  | nil => simp [storeSet, storeGet, List.lookup]
  | cons kv rest ih =>
    obtain ⟨k', v'⟩ := kv
    by_cases hk : k' = k
    · simp [storeSet, hk, storeGet, List.lookup]
    · have hbeq : (k == k') = false := by
        rw [beq_eq_false_iff_ne]
        exact fun h => hk h.symm
      simp only [storeSet, if_neg hk, storeGet, List.lookup, hbeq]
      exact ih

/-- Opening line of the `SYSTEM_PROMPT` constant (groq_robot.py lines 30-108).
The remainder of the prompt text (persona details, the MOTION/FACE
vocabularies reproduced in `MOTIONS`/`FACES`, format examples) is immaterial
to every claim: the prompt is only ever passed opaquely as the content of the
leading system message. -/
def SYSTEM_PROMPT : Str :=
  ("You are Aarav, a friendly and intelligent demo robot living in a research lab.".data)

def GROQ_MODEL : Str := ("llama-3.3-70b-versatile".data)

/-- The argument bundle of `groq_client.chat.completions.create` (the Python
float literal `0.7` is the exact rational 7/10). -/
structure LLMRequest where
  model : Str
  messages : List Turn
  max_tokens : Nat
  temperature : ℚ
deriving DecidableEq

instance exceptDecEq {α β : Type} [DecidableEq α] [DecidableEq β] :
    DecidableEq (Except α β) := fun a b =>
  match a, b with
  | .error x, .error y =>
    if h : x = y then isTrue (congrArg Except.error h)
    else isFalse (fun hc => h (Except.error.inj hc))
  | .error _, .ok _ => isFalse (fun hc => Except.noConfusion hc)
  | .ok _, .error _ => isFalse (fun hc => Except.noConfusion hc)
  | .ok x, .ok y =>
    if h : x = y then isTrue (congrArg Except.ok h)
    else isFalse (fun hc => h (Except.ok.inj hc))

/-- Result of one `get_llm_response` call: the updated store, the request that
was passed to the LLM service, and the reply (`Except.error` models a raised
exception carrying its message). -/
structure LLMOutcome where
  store : Store
  request : LLMRequest
  result : Except Str Str
deriving DecidableEq

/-- `get_llm_response(session_id, user_message)` (groq_robot.py lines 138-167),
with the network call modelled by the oracle `llm`.  The user turn is appended
before the call; on success the assistant turn is appended and the history
truncated to its last 20 entries; on an exception the store keeps the
user-turn append and the exception propagates (modelled by `Except.error`). -/
def histAfterUser (store : Store) (session_id user_message : Str) : List Turn :=
  (storeGet store session_id).getD [] ++ [⟨userRole, user_message⟩]

/-- The request built at groq_robot.py lines 147-155: one system message
holding `SYSTEM_PROMPT` followed by the whole post-append history. -/
def llmRequestOf (store : Store) (session_id user_message : Str) : LLMRequest :=
  ⟨GROQ_MODEL, ⟨systemRole, SYSTEM_PROMPT⟩ :: histAfterUser store session_id user_message,
    300, 7/10⟩

/-- The `[-20:]` truncation guarded by `len(...) > 20` (lines 164-165). -/
def truncate20 (h : List Turn) : List Turn :=
  if h.length > 20 then h.drop (h.length - 20) else h

def get_llm_response (llm : LLMRequest → Except Str Str) (store : Store)
    (session_id user_message : Str) : LLMOutcome :=
  match llm (llmRequestOf store session_id user_message) with
  | .error e =>
    ⟨storeSet store session_id (histAfterUser store session_id user_message),
      llmRequestOf store session_id user_message, .error e⟩
  | .ok raw_reply =>
    ⟨storeSet store session_id
        (truncate20 (histAfterUser store session_id user_message ++
          [⟨assistantRole, raw_reply⟩])),
      llmRequestOf store session_id user_message, .ok raw_reply⟩

/-! ## Claim C6 -/

/-- Claim C6: every `get_llm_response` invocation sends the LLM exactly the
fixed system prompt followed by the session's full transcript as it stands
after the new user turn has been appended, in order, with `max_tokens = 300`
and `temperature = 0.7`. -/
theorem llm_request_shape (llm : LLMRequest → Except Str Str) (store : Store)
    (session_id user_message : Str) :
    (get_llm_response llm store session_id user_message).request =
      ⟨GROQ_MODEL,
        Turn.mk systemRole SYSTEM_PROMPT ::
          ((storeGet store session_id).getD [] ++ [Turn.mk userRole user_message]),
        300, 7/10⟩ := by
  unfold get_llm_response
  cases llm (llmRequestOf store session_id user_message) with
  | error e => rfl
  | ok r => rfl

/-! ## Claim C3: session bounding across a sequence of invocations -/

/-- One pipeline invocation against a session: the user message and the LLM
outcome for that call (`Except.error` = the call raised). -/
abbrev Event := Str × Except Str Str

/-- Run a sequence of `get_llm_response` invocations against one session. -/
def runSession (sid : Str) : Store → List Event → Store
  | st, [] => st
  | st, ev :: evs =>
    runSession sid ((get_llm_response (fun _ => ev.2) st sid ev.1).store) evs

/-- The turns a single invocation appends (conceptually, before bounding). -/
def evTurns (ev : Event) : List Turn :=
  match ev.2 with
  | .error _ => [⟨userRole, ev.1⟩]
  | .ok r => [⟨userRole, ev.1⟩, ⟨assistantRole, r⟩]

/-- The full unbounded transcript a sequence of invocations appends. -/
def appendedTurns (evs : List Event) : List Turn := (evs.map evTurns).flatten

/-- The stored transcript of a session. -/
def histOf (st : Store) (sid : Str) : List Turn := (storeGet st sid).getD []

lemma appendedTurns_append (e1 e2 : List Event) :
    appendedTurns (e1 ++ e2) = appendedTurns e1 ++ appendedTurns e2 := by
  unfold appendedTurns
  rw [List.map_append, List.flatten_append]

lemma runSession_cons (sid : Str) (st : Store) (ev : Event) (evs : List Event) :
    runSession sid st (ev :: evs) =
      runSession sid ((get_llm_response (fun _ => ev.2) st sid ev.1).store) evs := rfl

lemma runSession_append (sid : Str) (st : Store) (e1 e2 : List Event) :
    runSession sid st (e1 ++ e2) = runSession sid (runSession sid st e1) e2 := by
  induction e1 generalizing st with
  | nil => rfl
  | cons ev e1 ih => exact ih _

lemma histOf_llm_error (e : Str) (st : Store) (sid m : Str) :
    histOf ((get_llm_response (fun _ => Except.error e) st sid m).store) sid =
      histOf st sid ++ [⟨userRole, m⟩] := by
  unfold get_llm_response histOf histAfterUser
  rw [storeGet_storeSet_self]
  rfl

lemma histOf_llm_ok (r : Str) (st : Store) (sid m : Str) :
    histOf ((get_llm_response (fun _ => Except.ok r) st sid m).store) sid =
      truncate20 (histOf st sid ++ [Turn.mk userRole m, Turn.mk assistantRole r]) := by
  unfold get_llm_response histOf histAfterUser
  rw [storeGet_storeSet_self]
  simp

lemma suffix_append_both {h A : List Turn} (hs : h <:+ A) (t : List Turn) :
    h ++ t <:+ A ++ t := by
  obtain ⟨u, hu⟩ := hs
  exact ⟨u, by rw [← hu, List.append_assoc]⟩

/-- The bounding invariant: the stored history is always a suffix of the full
appended transcript, and is either the whole of it or already at least 20
turns long. -/
lemma runSession_invariant (sid : Str) (evs : List Event) (st : Store) (A : List Turn)
    (hsuf : histOf st sid <:+ A)
    (hlen : (histOf st sid).length = A.length ∨ 20 ≤ (histOf st sid).length) :
    histOf (runSession sid st evs) sid <:+ A ++ appendedTurns evs
    ∧ ((histOf (runSession sid st evs) sid).length = (A ++ appendedTurns evs).length
       ∨ 20 ≤ (histOf (runSession sid st evs) sid).length) := by
  induction evs generalizing st A with
  | nil =>
    rw [show appendedTurns [] = [] from rfl, List.append_nil]
    exact ⟨hsuf, hlen⟩
  | cons ev evs ih =>
    obtain ⟨m, res⟩ := ev
    have hA : appendedTurns ((m, res) :: evs) = evTurns (m, res) ++ appendedTurns evs := by
      unfold appendedTurns
      rw [List.map_cons, List.flatten_cons]
    rw [hA, ← List.append_assoc, runSession_cons]
    dsimp only
    cases res with
    | error e =>
      apply ih
      · rw [histOf_llm_error]
        exact suffix_append_both hsuf _
      · rw [histOf_llm_error]
        rcases hlen with hl | hl
        · left
          rw [show evTurns (m, Except.error e) = [Turn.mk userRole m] from rfl]
          simp [hl]
        · right
          simp
          omega
    | ok r =>
      apply ih
      · rw [histOf_llm_ok, truncate20]
        have hsuf2 : histOf st sid ++ [Turn.mk userRole m, Turn.mk assistantRole r] <:+
            A ++ evTurns (m, Except.ok r) := suffix_append_both hsuf _
        by_cases hgt : (histOf st sid ++ [Turn.mk userRole m, Turn.mk assistantRole r]).length > 20
        · rw [if_pos hgt]
          exact (List.drop_suffix _ _).trans hsuf2
        · rw [if_neg hgt]
          exact hsuf2
      · rw [histOf_llm_ok, truncate20]
        by_cases hgt : (histOf st sid ++ [Turn.mk userRole m, Turn.mk assistantRole r]).length > 20
        · rw [if_pos hgt]
          right
          rw [List.length_drop]
          omega
        · rw [if_neg hgt]
          rcases hlen with hl | hl
          · left
            rw [show evTurns (m, Except.ok r) = [Turn.mk userRole m, Turn.mk assistantRole r] from rfl]
            simp [hl]
          · right
            simp
            omega

/-- Ten invocations with a successful LLM call (filling the session to the
20-turn cap) followed by one invocation whose LLM call raises. -/
def cexEvents : List Event :=
  List.replicate 10 ((("u".data) : Str), (Except.ok ("a".data) : Except Str Str)) ++
    [(("u".data), Except.error ("boom".data))]

/-- Claim C3 counterexample: the stored transcript CAN exceed 20 turns.  After
ten successful invocations the session holds 20 turns; a failed LLM call then
appends the user turn without re-truncating (truncation only runs after a
successful call, groq_robot.py lines 159-165), leaving 21 stored turns. -/
theorem session_cap_exceeded_cex :
    20 < (histOf (runSession ("s".data) [] cexEvents) ("s".data)).length
    ∧ (histOf (runSession ("s".data) [] cexEvents) ("s".data)).length = 21 := by
  constructor <;> decide

/-- Claim C3 (amended): after every invocation whose LLM call succeeds, the
stored transcript is a suffix of the full appended turn sequence (so the most
recent turns, in original relative order) and its length is exactly
`min 20 (total appended)`; an invocation whose LLM call raises appends the
user turn without truncating, so after such a failure the cap can be
exceeded (see the counterexample). -/
theorem session_cap_after_success (sid : Str) (evs : List Event) (m r : Str) :
    histOf (runSession sid [] (evs ++ [(m, Except.ok r)])) sid <:+
      appendedTurns (evs ++ [(m, Except.ok r)])
    ∧ (histOf (runSession sid [] (evs ++ [(m, Except.ok r)])) sid).length =
      min 20 (appendedTurns (evs ++ [(m, Except.ok r)])).length := by
  have hinv := runSession_invariant sid evs ([] : Store) []
    ⟨[], rfl⟩ (Or.inl rfl)
  rw [List.nil_append] at hinv
  rw [runSession_append, appendedTurns_append]
  have hstep : ∀ st : Store, runSession sid st [(m, Except.ok r)] =
      (get_llm_response (fun _ => Except.ok r) st sid m).store := fun st => rfl
  rw [hstep, histOf_llm_ok]
  have happ : appendedTurns [(m, Except.ok r)] =
      [Turn.mk userRole m, Turn.mk assistantRole r] := rfl
  rw [happ]
  have hsufA : histOf (runSession sid [] evs) sid <:+ appendedTurns evs := hinv.1
  have hlenA : (histOf (runSession sid [] evs) sid).length ≤ (appendedTurns evs).length :=
    hsufA.length_le
  have h2len : (histOf (runSession sid [] evs) sid ++
      [Turn.mk userRole m, Turn.mk assistantRole r]).length =
      (histOf (runSession sid [] evs) sid).length + 2 := by simp
  have hAlen : (appendedTurns evs ++ [Turn.mk userRole m, Turn.mk assistantRole r]).length =
      (appendedTurns evs).length + 2 := by simp
  unfold truncate20
  by_cases hgt : (histOf (runSession sid [] evs) sid ++
      [Turn.mk userRole m, Turn.mk assistantRole r]).length > 20
  · rw [if_pos hgt]
    refine ⟨(List.drop_suffix _ _).trans (suffix_append_both hsufA _), ?_⟩
    rw [List.length_drop, hAlen, h2len]
    omega
  · rw [if_neg hgt]
    refine ⟨suffix_append_both hsufA _, ?_⟩
    rcases hinv.2 with hl | hl
    · rw [h2len, hAlen]
      omega
    · rw [h2len, hAlen]
      omega

/-! ## Audio transcoder (`convert_to_esp32_wav`, groq_robot.py lines 207-239) -/

/-- Outcome of the external `ffmpeg` invocation: a successful conversion
producing the wav bytes, or a failure (`subprocess` raising on a non-zero
exit, a missing binary, or any other exception in the `try` block), in which
case `wavCreated` records whether the failed invocation had already created
the output artifact on disk. -/
inductive FfmpegResult where
  | ok (wav : List Nat)
  | fail (wavCreated : Bool)
deriving DecidableEq

/-- Result of `convert_to_esp32_wav`: the returned bytes plus which of the two
temporary artifacts (the `.mp3` input file and the `.wav` output file) are
left on disk after the call. -/
structure ConvertResult where
  bytes : List Nat
  mp3FileLeft : Bool
  wavFileLeft : Bool
deriving DecidableEq

/-- `convert_to_esp32_wav(mp3_bytes)`: write the input artifact; run ffmpeg;
on success read the output, remove both files and return the wav bytes; on
any exception print, remove only the input artifact, and return the original
mp3 bytes (the `except` block of lines 236-239 removes `mp3_path` but not
`wav_path`). -/
def convert_to_esp32_wav (ffmpeg : List Nat → FfmpegResult) (mp3_bytes : List Nat) :
    ConvertResult :=
  match ffmpeg mp3_bytes with
  | .ok wav_bytes => ⟨wav_bytes, false, false⟩
  | .fail wavCreated => ⟨mp3_bytes, false, wavCreated⟩

/-! ## Claim C7 -/

/-- Claim C7: whenever the external conversion invocation fails or raises, the
transcoder returns the original input bytes unchanged (byte-for-byte); being a
total function of the model it neither raises nor returns empty bytes for
non-empty input. -/
theorem transcode_failure_returns_input (ffmpeg : List Nat → FfmpegResult)
    (mp3_bytes : List Nat) (w : Bool) (h : ffmpeg mp3_bytes = FfmpegResult.fail w) :
    (convert_to_esp32_wav ffmpeg mp3_bytes).bytes = mp3_bytes := by
  unfold convert_to_esp32_wav
  rw [h]

/-- Witness for Claim C7 at a concrete failing conversion. -/
theorem transcode_failure_returns_input_witness :
    (convert_to_esp32_wav (fun _ => FfmpegResult.fail false) [4, 5, 6]).bytes = [4, 5, 6] :=
  transcode_failure_returns_input (fun _ => FfmpegResult.fail false) [4, 5, 6] false rfl

/-! ## Claim C8 -/

/-- Claim C8 counterexample: on the conversion-failure exit path the `except`
block removes only the mp3 input artifact; if the failed ffmpeg invocation had
already created the wav output artifact, that file is left behind — cleanup is
NOT guaranteed on every exit path. -/
theorem transcode_cleanup_cex :
    (convert_to_esp32_wav (fun _ => FfmpegResult.fail true) [1, 2, 3]).wavFileLeft = true := by
  decide

/-- Claim C8 (amended): the mp3 input artifact is removed on every exit path,
and the wav output artifact is removed on the success path; but on the
conversion-failure path a wav artifact created by the failed invocation is
left behind (the `except` block removes only `mp3_path`). -/
theorem transcode_tempfile_cleanup (ffmpeg : List Nat → FfmpegResult) (mp3_bytes : List Nat) :
    (convert_to_esp32_wav ffmpeg mp3_bytes).mp3FileLeft = false
    ∧ ((convert_to_esp32_wav ffmpeg mp3_bytes).wavFileLeft = true ↔
        ffmpeg mp3_bytes = FfmpegResult.fail true) := by
  unfold convert_to_esp32_wav
  cases h : ffmpeg mp3_bytes with
  | ok w => exact ⟨rfl, by simp⟩
  | fail wc =>
    cases wc with
    | false => exact ⟨rfl, by simp⟩
    | true => exact ⟨rfl, by simp⟩

/-! ## Base64 (model of Python `base64.b64encode`, RFC 4648) -/

def B64_TABLE : Str :=
  ("ABCDEFGHIJKLMNOPQRSTUVWXYZabcdefghijklmnopqrstuvwxyz0123456789+/".data)

def b64char (n : Nat) : Char := B64_TABLE.getD n 'A'

/-- `base64.b64encode(bytes).decode("utf-8")`. -/
def b64encode : List Nat → Str
  | [] => []
  | [a] => [b64char (a / 4), b64char (a % 4 * 16), '=', '=']
  | [a, b] => [b64char (a / 4), b64char (a % 4 * 16 + b / 16), b64char (b % 16 * 4), '=']
  | a :: b :: c :: rest =>
    b64char (a / 4) :: b64char (a % 4 * 16 + b / 16) ::
      b64char (b % 16 * 4 + c / 64) :: b64char (c % 64) :: b64encode rest

example : b64encode [77, 97, 110] = ("TWFu".data) := by decide
example : b64encode [77, 97] = ("TWE=".data) := by decide
example : b64encode [77] = ("TQ==".data) := by decide
example : b64encode [] = [] := by decide

/-! ## The `/talk` endpoint (groq_robot.py lines 277-345) and
`/clear_session` (lines 384-392) -/

/-- The JSON body of the endpoints, modelled as the parsed dict: an
association list of string fields (`none` = the three parse attempts of
lines 285-302 all failed to produce data). A Python dict is falsy exactly
when it has no entries. -/
abbrev RequestData := List (Str × Str)

/-- The response body produced by `jsonify` in `talk`: `none` fields are keys
absent from the JSON object. -/
structure TalkResponse where
  success : Bool
  error : Option Str
  audio_base64 : Option Str
  transcript : Option Str
  response : Option Str
  motion : Option Str
  face : Option Str
deriving DecidableEq

/-- A `/talk` result: the updated store, the response body and the HTTP
status. -/
structure TalkOutcome where
  store : Store
  resp : TalkResponse
  status : Nat
deriving DecidableEq

def errorResp (e : Str) : TalkResponse := ⟨false, some e, none, none, none, none, none⟩

def PARSE_ERROR_MSG : Str := ("Could not parse request data".data)

def NO_TEXT_MSG : Str := ("No text provided".data)

/-- `data.get("text", "")` (line 308). -/
def userTextOf (d : RequestData) : Str := (d.lookup ("text".data)).getD []

/-- `data.get("session_id", "default")` (lines 309 and 389). -/
def sessionIdOf (d : RequestData) : Str :=
  (d.lookup ("session_id".data)).getD ("default".data)

/-- The pipeline stages of `talk` after the request fields have been
extracted (lines 314-345): LLM, parse, TTS, transcode, base64, assemble.
Exceptions raised by the LLM call or by TTS are caught by the surrounding
`try` and turned into `{success: False, error: str(e)}` with HTTP 200. -/
def talkWith (llm : LLMRequest → Except Str Str) (tts : Str → Except Str (List Nat))
    (ffmpeg : List Nat → FfmpegResult) (store : Store)
    (user_text session_id : Str) : TalkOutcome :=
  match (get_llm_response llm store session_id user_text).result with
  | .error e => ⟨(get_llm_response llm store session_id user_text).store, errorResp e, 200⟩
  | .ok raw_llm_response =>
    match tts (parse_response raw_llm_response).spoken_text with
    | .error e => ⟨(get_llm_response llm store session_id user_text).store, errorResp e, 200⟩
    | .ok audio_mp3 =>
      ⟨(get_llm_response llm store session_id user_text).store,
        ⟨true, none,
          some (b64encode (convert_to_esp32_wav ffmpeg audio_mp3).bytes),
          some user_text,
          some (parse_response raw_llm_response).spoken_text,
          some (parse_response raw_llm_response).motion,
          some (parse_response raw_llm_response).face⟩,
        200⟩

/-- The `/talk` endpoint: reject a missing/empty body (`if not data`,
lines 304-306), reject missing/empty text (lines 311-312), then run the
pipeline. Every path returns HTTP 200. -/
def talk (llm : LLMRequest → Except Str Str) (tts : Str → Except Str (List Nat))
    (ffmpeg : List Nat → FfmpegResult) (store : Store)
    (data : Option RequestData) : TalkOutcome :=
  match data with
  | none => ⟨store, errorResp PARSE_ERROR_MSG, 200⟩
  | some d =>
    if d.isEmpty then ⟨store, errorResp PARSE_ERROR_MSG, 200⟩
    else if (userTextOf d).isEmpty then ⟨store, errorResp NO_TEXT_MSG, 200⟩
    else talkWith llm tts ffmpeg store (userTextOf d) (sessionIdOf d)

/-- A `/clear_session` result. -/
structure ClearOutcome where
  store : Store
  message : Str
  status : Nat
deriving DecidableEq

def singleQuote : Char := Char.ofNat 39

/-- The `/clear_session` endpoint (lines 384-392): delete the session if
present, no-op otherwise; always HTTP 200 with a confirmation message. -/
def clear_session (store : Store) (d : RequestData) : ClearOutcome :=
  ⟨if (storeGet store (sessionIdOf d)).isSome then storeErase store (sessionIdOf d) else store,
    ("Session ".data) ++ [singleQuote] ++ sessionIdOf d ++ [singleQuote] ++ (" cleared.".data),
    200⟩

/-- Stub oracles for concrete counterexamples/witnesses. -/
def llmStub : LLMRequest → Except Str Str := fun _ => Except.error ("llm down".data)

def ttsStub : Str → Except Str (List Nat) := fun _ => Except.ok [1, 2, 3]

def ffmpegStub : List Nat → FfmpegResult := fun _ => FfmpegResult.ok [7, 8]

lemma isEmpty_false_of_lookup {d : RequestData} {k v : Str} (h : d.lookup k = some v) :
    d.isEmpty = false := by
  cases d with
  | nil => exact absurd h (by simp [List.lookup])
  | cons kv rest => rfl

lemma lookup_append_ne {k k2 : Str} (hne : k ≠ k2) (d : RequestData) (v : Str) :
    List.lookup k (d ++ [(k2, v)]) = List.lookup k d := by
  induction d with
  | nil =>
    show List.lookup k [(k2, v)] = none
    have : (k == k2) = false := beq_eq_false_iff_ne.mpr hne
    simp [List.lookup, this]
  | cons kv rest ih =>
    obtain ⟨a, b⟩ := kv
    show List.lookup k ((a, b) :: (rest ++ [(k2, v)])) = List.lookup k ((a, b) :: rest)
    cases hka : (k == a) with
    | true => simp [List.lookup, hka]
    | false => simp [List.lookup, hka, ih]

lemma lookup_append_self {k : Str} {d : RequestData} (h : List.lookup k d = none) (v : Str) :
    List.lookup k (d ++ [(k, v)]) = some v := by
  induction d with
  | nil => simp [List.lookup]
  | cons kv rest ih =>
    obtain ⟨a, b⟩ := kv
    cases hka : (k == a) with
    | true =>
      exfalso
      rw [show List.lookup k ((a, b) :: rest) = some b by simp [List.lookup, hka]] at h
      exact Option.noConfusion h
    | false =>
      have h' : List.lookup k rest = none := by
        rw [show List.lookup k ((a, b) :: rest) = List.lookup k rest by
          simp [List.lookup, hka]] at h
        exact h
      show List.lookup k ((a, b) :: (rest ++ [(k, v)])) = some v
      simp [List.lookup, hka, ih h']

lemma get_llm_result_ok (r : Str) (store : Store) (sid m : Str) :
    (get_llm_response (fun _ => Except.ok r) store sid m).result = Except.ok r := rfl

lemma get_llm_result_error (e : Str) (store : Store) (sid m : Str) :
    (get_llm_response (fun _ => Except.error e) store sid m).result = Except.error e := rfl

lemma userTextOf_isEmpty_false {d : RequestData} {t : Str}
    (ht : d.lookup ("text".data) = some t) (htne : t ≠ []) :
    (userTextOf d).isEmpty = false := by
  rw [userTextOf, ht]
  cases t with
  | nil => exact absurd rfl htne
  | cons a as => rfl

/-! ## Claim C4 -/

/-- Claim C4: when the LLM call raises during a `/talk` invocation (with a
non-empty text field), the caller receives `{success: false, error: e}` with
`e` the exception's (non-empty) message and HTTP status 200; the session
keeps exactly the user turn appended before the call (the mutation is not
rolled back), and no assistant turn is appended. -/
theorem talk_llm_failure (tts : Str → Except Str (List Nat))
    (ffmpeg : List Nat → FfmpegResult) (store : Store) (d : RequestData) (t e : Str)
    (ht : d.lookup ("text".data) = some t) (htne : t ≠ []) (hene : e ≠ []) :
    talk (fun _ => Except.error e) tts ffmpeg store (some d) =
      ⟨storeSet store (sessionIdOf d)
          ((storeGet store (sessionIdOf d)).getD [] ++ [Turn.mk userRole t]),
        errorResp e, 200⟩
    ∧ storeGet (talk (fun _ => Except.error e) tts ffmpeg store (some d)).store
        (sessionIdOf d) =
        some ((storeGet store (sessionIdOf d)).getD [] ++ [Turn.mk userRole t])
    ∧ (errorResp e).error = some e ∧ e ≠ [] := by
  have hd : d.isEmpty = false := isEmpty_false_of_lookup ht
  have hut : userTextOf d = t := by rw [userTextOf, ht]; rfl
  have hute : (userTextOf d).isEmpty = false := userTextOf_isEmpty_false ht htne
  have hmain : talk (fun _ => Except.error e) tts ffmpeg store (some d) =
      ⟨storeSet store (sessionIdOf d)
          ((storeGet store (sessionIdOf d)).getD [] ++ [Turn.mk userRole t]),
        errorResp e, 200⟩ := by
    unfold talk
    dsimp only
    rw [if_neg (by rw [hd]; exact Bool.false_ne_true),
      if_neg (by rw [hute]; exact Bool.false_ne_true), hut]
    rfl
  refine ⟨hmain, ?_, rfl, hene⟩
  rw [hmain]
  exact storeGet_storeSet_self store (sessionIdOf d) _

/-- Witness for Claim C4: a concrete failing LLM call. -/
theorem talk_llm_failure_witness :
    talk (fun _ => Except.error ("boom".data)) ttsStub ffmpegStub []
        (some [(("text".data), ("hi".data))]) =
      ⟨storeSet [] (sessionIdOf [(("text".data), ("hi".data))])
          ((storeGet [] (sessionIdOf [(("text".data), ("hi".data))])).getD [] ++
            [Turn.mk userRole ("hi".data)]),
        errorResp ("boom".data), 200⟩ :=
  (talk_llm_failure ttsStub ffmpegStub [] [(("text".data), ("hi".data))] ("hi".data)
    ("boom".data) (by decide) (by decide) (by decide)).1

/-! ## Claim C5 -/

/-- Claim C5: a successful `/talk` invocation with text `t` and raw LLM reply
`raw` returns exactly `{success: true, transcript: t, response: s, motion: m,
face: f, audio_base64: b}` with HTTP 200, where `(s, m, f) =
parse_response raw` and `b` is the base64 encoding of the bytes returned by
the audio transcoder for the synthesized audio of `s`. -/
theorem talk_success_payload (ffmpeg : List Nat → FfmpegResult) (store : Store)
    (d : RequestData) (t raw : Str) (tts : Str → Except Str (List Nat)) (mp3 : List Nat)
    (ht : d.lookup ("text".data) = some t) (htne : t ≠ [])
    (htts : tts (parse_response raw).spoken_text = Except.ok mp3) :
    talk (fun _ => Except.ok raw) tts ffmpeg store (some d) =
      ⟨(get_llm_response (fun _ => Except.ok raw) store (sessionIdOf d) t).store,
        ⟨true, none,
          some (b64encode (convert_to_esp32_wav ffmpeg mp3).bytes),
          some t,
          some (parse_response raw).spoken_text,
          some (parse_response raw).motion,
          some (parse_response raw).face⟩, 200⟩ := by
  have hd : d.isEmpty = false := isEmpty_false_of_lookup ht
  have hut : userTextOf d = t := by rw [userTextOf, ht]; rfl
  have hute : (userTextOf d).isEmpty = false := userTextOf_isEmpty_false ht htne
  unfold talk
  dsimp only
  rw [if_neg (by rw [hd]; exact Bool.false_ne_true),
    if_neg (by rw [hute]; exact Bool.false_ne_true), hut]
  unfold talkWith
  rw [get_llm_result_ok]
  dsimp only
  rw [htts]

/-- The stubbed LLM reply of the specification's end-to-end scenario. -/
def jokeReply : Str :=
  ("Why did the robot cross the road? To get to the other silicon!\nMOTION: dance\nFACE: happy".data)

example :
    parse_response jokeReply =
      ⟨("Why did the robot cross the road? To get to the other silicon!".data),
        ("dance".data), ("happy".data)⟩ := by decide

/-- Witness for Claim C5: the specification's end-to-end joke scenario. -/
theorem talk_success_payload_witness :
    talk (fun _ => Except.ok jokeReply) ttsStub ffmpegStub []
        (some [(("text".data), ("Tell me a joke".data)),
               (("session_id".data), ("s1".data))]) =
      ⟨(get_llm_response (fun _ => Except.ok jokeReply) []
          (sessionIdOf [(("text".data), ("Tell me a joke".data)),
            (("session_id".data), ("s1".data))]) ("Tell me a joke".data)).store,
        ⟨true, none,
          some (b64encode (convert_to_esp32_wav ffmpegStub [1, 2, 3]).bytes),
          some ("Tell me a joke".data),
          some (parse_response jokeReply).spoken_text,
          some (parse_response jokeReply).motion,
          some (parse_response jokeReply).face⟩, 200⟩ :=
  talk_success_payload ffmpegStub []
    [(("text".data), ("Tell me a joke".data)), (("session_id".data), ("s1".data))]
    ("Tell me a joke".data) jokeReply ttsStub [1, 2, 3] (by decide) (by decide) rfl

/-! ## Claim C9 -/

lemma storeGet_storeErase (st : Store) (k : Str) : storeGet (storeErase st k) k = none := by
  induction st with
  | nil => rfl
  | cons kv rest ih =>
    obtain ⟨a, b⟩ := kv
    by_cases hak : (a == k) = true
    · show storeGet (List.filter _ ((a, b) :: rest)) k = none
      rw [List.filter_cons, if_neg (by simp [hak])]
      exact ih
    · show storeGet (List.filter _ ((a, b) :: rest)) k = none
      rw [List.filter_cons, if_pos (by simp [Bool.eq_false_iff.mpr hak])]
      show List.lookup k ((a, b) :: storeErase rest k) = none
      have hka : (k == a) = false := by
        rw [beq_eq_false_iff_ne]
        intro h
        exact hak (by rw [h, beq_self_eq_true])
      have hstep : List.lookup k ((a, b) :: storeErase rest k) =
          List.lookup k (storeErase rest k) := by
        simp only [List.lookup, hka]
      rw [hstep]
      exact ih

/-- Claim C9 counterexample: a `/talk` body that omits `session_id` does NOT
always behave as if `session_id` were `"default"` — the empty JSON object
`{}` is falsy, so it is rejected as unparseable before session handling,
while the same request with an explicit `session_id: "default"` proceeds to
the text check.  The two responses differ. -/
theorem talk_empty_body_session_cex :
    (talk llmStub ttsStub ffmpegStub [] (some [])).resp.error = some PARSE_ERROR_MSG
    ∧ (talk llmStub ttsStub ffmpegStub []
        (some [(("session_id".data), ("default".data))])).resp.error = some NO_TEXT_MSG
    ∧ talk llmStub ttsStub ffmpegStub [] (some []) ≠
        talk llmStub ttsStub ffmpegStub [] (some [(("session_id".data), ("default".data))]) := by
  refine ⟨by decide, by decide, by decide⟩

/-- Claim C9 (amended): a `/talk` request whose parsed body is non-empty and
omits `session_id` behaves exactly as the same request with
`session_id: "default"` appended (it reads and mutates the history keyed
`"default"`); a `/clear_session` request omitting `session_id` likewise
operates on `"default"`, leaving no `"default"` session behind.  The empty
`/talk` body is the one exception: it is rejected as unparseable before
session handling (see the counterexample). -/
theorem talk_clear_default_session (llm : LLMRequest → Except Str Str)
    (tts : Str → Except Str (List Nat)) (ffmpeg : List Nat → FfmpegResult)
    (store : Store) (d d2 : RequestData)
    (hd : d.lookup ("session_id".data) = none) (hdne : d ≠ [])
    (hd2 : d2.lookup ("session_id".data) = none) :
    talk llm tts ffmpeg store (some d) =
      talk llm tts ffmpeg store (some (d ++ [(("session_id".data), ("default".data))]))
    ∧ sessionIdOf d = ("default".data)
    ∧ clear_session store d2 =
        clear_session store (d2 ++ [(("session_id".data), ("default".data))])
    ∧ storeGet (clear_session store d2).store ("default".data) = none := by
  have hsid0 : sessionIdOf d = ("default".data) := by rw [sessionIdOf, hd]; rfl
  have hsid1 : sessionIdOf (d ++ [(("session_id".data), ("default".data))]) =
      ("default".data) := by
    rw [sessionIdOf, lookup_append_self hd]
    rfl
  have hsid20 : sessionIdOf d2 = ("default".data) := by rw [sessionIdOf, hd2]; rfl
  have hsid21 : sessionIdOf (d2 ++ [(("session_id".data), ("default".data))]) =
      ("default".data) := by
    rw [sessionIdOf, lookup_append_self hd2]
    rfl
  have hut : userTextOf (d ++ [(("session_id".data), ("default".data))]) = userTextOf d := by
    rw [userTextOf, userTextOf, lookup_append_ne (by decide)]
  have hemp0 : d.isEmpty = false := by
    cases d with
    | nil => exact absurd rfl hdne
    | cons a b => rfl
  have hemp1 : (d ++ [(("session_id".data), ("default".data))]).isEmpty = false := by
    cases d with
    | nil => rfl
    | cons a b => rfl
  refine ⟨?_, hsid0, ?_, ?_⟩
  · unfold talk
    dsimp only
    rw [hemp0, hemp1, hut, hsid0, hsid1]
  · unfold clear_session
    rw [hsid20, hsid21]
  · unfold clear_session
    dsimp only
    rw [hsid20]
    by_cases hsome : (storeGet store ("default".data)).isSome = true
    · rw [if_pos hsome]
      exact storeGet_storeErase store ("default".data)
    · rw [if_neg hsome]
      cases hval : storeGet store ("default".data) with
      | none => rfl
      | some v => exact absurd (by rw [hval]; rfl) hsome

/-- Witness for the amended Claim C9 at a concrete body omitting
`session_id`. -/
theorem talk_clear_default_session_witness :
    talk llmStub ttsStub ffmpegStub [] (some [(("text".data), ("hi".data))]) =
      talk llmStub ttsStub ffmpegStub []
        (some ([(("text".data), ("hi".data))] ++
          [(("session_id".data), ("default".data))]))
    ∧ sessionIdOf [(("text".data), ("hi".data))] = ("default".data)
    ∧ clear_session [] ([] : RequestData) =
        clear_session [] (([] : RequestData) ++
          [(("session_id".data), ("default".data))])
    ∧ storeGet (clear_session [] ([] : RequestData)).store ("default".data) = none :=
  talk_clear_default_session llmStub ttsStub ffmpegStub [] [(("text".data), ("hi".data))] []
    (by decide) (by decide) (by decide)

/-! ## Claim C10 -/

/-- Claim C10 counterexample: the empty JSON body `{}` omits the `text` field,
yet the response is `{success: false, error: "Could not parse request data"}`,
not `"No text provided"` (the `if not data` check of lines 304-306 fires
first, since an empty dict is falsy). The store is still left unchanged and
the status is still 200. -/
theorem talk_missing_text_empty_body_cex :
    (talk llmStub ttsStub ffmpegStub [] (some [])).resp = errorResp PARSE_ERROR_MSG
    ∧ (talk llmStub ttsStub ffmpegStub [] (some [])).resp.error ≠ some NO_TEXT_MSG
    ∧ List.lookup ("text".data) ([] : RequestData) = none
    ∧ (talk llmStub ttsStub ffmpegStub [] (some [])).store = ([] : Store)
    ∧ (talk llmStub ttsStub ffmpegStub [] (some [])).status = 200 := by
  refine ⟨by decide, by decide, by decide, by decide, by decide⟩

/-- Claim C10 (amended): a `/talk` request whose parsed body is non-empty and
whose `text` field is absent or the empty string yields
`{success: false, error: "No text provided"}` with HTTP 200 and leaves the
store completely unchanged — no user turn recorded, no session created.  (A
body with no fields at all instead yields the
`"Could not parse request data"` response, also with status 200 and an
unchanged store; see the counterexample.) -/
theorem talk_missing_text (llm : LLMRequest → Except Str Str)
    (tts : Str → Except Str (List Nat)) (ffmpeg : List Nat → FfmpegResult)
    (store : Store) (d : RequestData) (hdne : d ≠ [])
    (ht : d.lookup ("text".data) = none ∨ d.lookup ("text".data) = some []) :
    talk llm tts ffmpeg store (some d) = ⟨store, errorResp NO_TEXT_MSG, 200⟩ := by
  have hemp : d.isEmpty = false := by
    cases d with
    | nil => exact absurd rfl hdne
    | cons a b => rfl
  have hut : (userTextOf d).isEmpty = true := by
    rcases ht with h | h <;> rw [userTextOf, h] <;> rfl
  unfold talk
  dsimp only
  rw [if_neg (by rw [hemp]; exact Bool.false_ne_true), if_pos hut]

/-- Witness for the amended Claim C10: a body with a `session_id` but no
`text`. -/
theorem talk_missing_text_witness :
    talk llmStub ttsStub ffmpegStub [] (some [(("session_id".data), ("x".data))]) =
      ⟨[], errorResp NO_TEXT_MSG, 200⟩ :=
  talk_missing_text llmStub ttsStub ffmpegStub [] [(("session_id".data), ("x".data))]
    (by decide) (Or.inl (by decide))
